import Mathlib

/-! tp_utils : interned string identifiers (StringID) and the timer thread

A shallow embedding of `inc/tp_utils/StringID.h` and of `src/TimerThread.cpp`.

* Pointers (`SharedData*`, `void*`) are natural numbers, `nullptr` is `0`.
* `size_t` is a natural number below `2 ^ 64`; every arithmetic operation of the
  header that can leave that range is followed by `wrap64`.
* `std::hash<void*>` is implementation defined, so it is a parameter `hashPtr`
  of everything that uses it.
* The member functions that the header only declares (constructors,
  `toString`, `isValid`, the intern table behind them) are modelled from the
  specification; each such definition says so in its doc comment.
-/

namespace tp_utils

/-! ## Part 1 : what the header defines inline -/

/-- The header's `typedef void* WeakStringID;` : a raw pointer value. -/
abbrev WeakStringID := Nat

/-- The null pointer value. -/
def nullptr : Nat := 0

/-- Truncation of a natural number to the 64 bits of a `size_t`. -/
def wrap64 (n : Nat) : Nat := n % 2 ^ 64

/-- The class `StringID` : its only data member is `SharedData* sd`. -/
structure StringID where
  /-- The member `SharedData* sd`, as a pointer value. -/
  sd : Nat
deriving DecidableEq, Repr

/-- The member `WeakStringID weak() const { return sd; }`. -/
def StringID.weak (a : StringID) : WeakStringID := a.sd

/-- The free function `operator==` : `return (a.sd == b.sd);`. -/
def StringID.operatorEq (a b : StringID) : Bool := a.sd == b.sd

/-- The free function `operator!=` : `return (a.sd != b.sd);`. -/
def StringID.operatorNe (a b : StringID) : Bool := a.sd != b.sd

/-- The specialisation `std::hash<tp_utils::StringID>` :
`return hash<void*>()(stringID.sd);`. -/
def hash_StringID (hashPtr : Nat → Nat) (stringID : StringID) : Nat :=
  hashPtr stringID.sd

/-- The specialisation `std::hash<tp_utils::WeakStringID>`; `WeakStringID` is a
typedef of `void*`, so this is `std::hash<void*>` itself. -/
def hash_WeakStringID (hashPtr : Nat → Nat) (w : WeakStringID) : Nat :=
  hashPtr w

/-- The range-for loop of `std::hash<std::vector<tp_utils::StringID>>`, with the
running value `h` as an accumulator:
`h ^= std::hash<tp_utils::StringID>()(stringID) + 0x9e3779b9 + (h<<6) + (h>>2);` -/
def hash_vector_StringID_loop (hashPtr : Nat → Nat) : Nat → List StringID → Nat
  | h, [] => h
  | h, stringID :: rest =>
    hash_vector_StringID_loop hashPtr
      (h ^^^ wrap64 (wrap64 (wrap64 (hash_StringID hashPtr stringID + 0x9e3779b9)
                              + wrap64 (h <<< 6)) + (h >>> 2)))
      rest

/-- The specialisation `std::hash<std::vector<tp_utils::StringID>>` :
`auto h = hash<void*>()(nullptr); for(...) h ^= ...; return h;`. -/
def hash_vector_StringID (hashPtr : Nat → Nat) (stringIDs : List StringID) : Nat :=
  hash_vector_StringID_loop hashPtr (hashPtr nullptr) stringIDs

/-- The range-for loop of `std::hash<std::vector<tp_utils::WeakStringID>>` :
`h ^= std::hash<tp_utils::WeakStringID>()(stringID) + 0x9e3779b9 + (h<<6) + (h>>2);` -/
def hash_vector_WeakStringID_loop (hashPtr : Nat → Nat) : Nat → List WeakStringID → Nat
  | h, [] => h
  | h, stringID :: rest =>
    hash_vector_WeakStringID_loop hashPtr
      (h ^^^ wrap64 (wrap64 (wrap64 (hash_WeakStringID hashPtr stringID + 0x9e3779b9)
                              + wrap64 (h <<< 6)) + (h >>> 2)))
      rest

/-- The specialisation `std::hash<std::vector<tp_utils::WeakStringID>>`. -/
def hash_vector_WeakStringID (hashPtr : Nat → Nat) (stringIDs : List WeakStringID) : Nat :=
  hash_vector_WeakStringID_loop hashPtr (hashPtr nullptr) stringIDs

/-! ## Part 2 : the intern table and the members the header only declares

The header declares the constructors, the assignment operators, `toString`,
`isValid`, `attach` and `detach` without a body, and the file that implements
them is not available. They are modelled here from the specification
(sections 3, 4.1 and 4.2). The table is one associative store; its partition
into independently locked buckets changes who may run concurrently, not the
result of an operation, and each operation below is one atomic step. -/

/-- Modelled from the spec: the struct `StringID::SharedData` (declared, not
defined, in the header) is the Entry of section 3: a unique identity (its
address), the string content and a reference count. -/
structure Entry where
  /-- The address of the Entry, which is what a handle stores in `sd`. -/
  id : Nat
  /-- The interned string, fixed for the lifetime of the Entry. -/
  content : String
  /-- The number of owning handles that share the Entry. -/
  refCount : Nat
deriving DecidableEq, Repr

/-- Modelled from the spec: the intern table (`StringID::StaticData`, declared
only) is the store of the live Entries, most recently created first. -/
abbrev InternTable := List Entry

/-- Modelled from the spec: the fixed static reference of the canonical empty
Entry that every blank handle holds (section 4.2, construct from nothing). It
is the null pointer, and no Entry of the table lives at it. -/
def blankRef : Nat := nullptr

/-- Modelled from the spec: the address the allocator hands out for a new
Entry of the table, an address that no live Entry occupies and that is not the
blank reference. Addresses of evicted Entries may be handed out again. -/
def freshId (table : InternTable) : Nat :=
  (table.map Entry.id).foldr max blankRef + 1

/-- Modelled from the spec: dereferencing an Entry reference, that is reading
the live Entry at that address. `none` stands for a reference to no live Entry,
which is undefined behaviour in the program. -/
def deref (table : InternTable) (ref : Nat) : Option Entry :=
  table.find? (fun e => e.id == ref)

/-- Modelled from the spec: incrementing the reference count of the Entry at
`ref` (the private member `StringID::attach()`, used by copies and by a
successful lookup). -/
def retain (table : InternTable) (ref : Nat) : InternTable :=
  table.map (fun e => if e.id = ref then { e with refCount := e.refCount + 1 } else e)

/-- Modelled from the spec: `attach(content) -> EntryRef` of section 4.1 (the
private member `StringID::fromString`, declared only). Empty content gives the
blank reference without touching the table; content that is found has its
reference count incremented; content that is not found gets a new Entry with
reference count 1. The result is the new table and the reference. -/
def attach (table : InternTable) (content : String) : InternTable × Nat :=
  if content = "" then (table, blankRef)
  else
    match table.find? (fun e => e.content == content) with
    | some e => (retain table e.id, e.id)
    | none =>
      ({ id := freshId table, content := content, refCount := 1 } :: table, freshId table)

/-- Modelled from the spec: `detach(EntryRef)` of section 4.1 (the private
member `StringID::detach()`, declared only): decrement the reference count of
the Entry and, if it reaches zero, remove the Entry from the table. -/
def detach (table : InternTable) (ref : Nat) : InternTable :=
  table.filterMap (fun e =>
    if e.id = ref then
      (if e.refCount - 1 = 0 then none else some { e with refCount := e.refCount - 1 })
    else some e)

/-- Modelled from the spec: the default constructor `StringID::StringID()`
(declared only): the blank handle. -/
def StringID.blank : StringID := { sd := blankRef }

/-- Modelled from the spec: the constructor
`StringID::StringID(const std::string&)` (declared only): attach the content
and hold the reference. The result is the new table and the new handle. -/
def StringID.fromStdString (table : InternTable) (string : String) :
    InternTable × StringID :=
  ((attach table string).1, { sd := (attach table string).2 })

/-- Modelled from the spec: the constructor `StringID::StringID(const char*)`
(declared only), for a null terminated string with the given characters: the
same as construction from that content. -/
def StringID.fromCString (table : InternTable) (string : String) :
    InternTable × StringID :=
  StringID.fromStdString table string

/-- Modelled from the spec: the copy constructor
`StringID::StringID(const StringID&)` (declared only): share the Entry of
`other` and increment its reference count, without a lookup. -/
def StringID.copyConstruct (table : InternTable) (other : StringID) :
    InternTable × StringID :=
  (retain table other.sd, { sd := other.sd })

/-- Modelled from the spec: the destructor `StringID::~StringID()` (declared
only): detach. -/
def StringID.destroy (table : InternTable) (a : StringID) : InternTable :=
  detach table a.sd

/-- Modelled from the spec: the move constructor
`StringID::StringID(StringID&&)` (declared only): the new handle takes the
Entry reference of `other`, no reference count changes, and `other` becomes the
blank handle. The result is the table, `other` afterwards, and the new handle. -/
def StringID.moveConstruct (table : InternTable) (other : StringID) :
    InternTable × StringID × StringID :=
  (table, StringID.blank, { sd := other.sd })

/-- Modelled from the spec: the move assignment
`StringID::operator=(StringID&&)` (declared only), for two distinct handle
objects `self` and `other`: `self` gives up the Entry it held (detach), takes
the Entry reference of `other` without changing that share of the count, and
`other` becomes the blank handle. The result is the table, `other` afterwards,
and `self` afterwards. -/
def StringID.moveAssign (table : InternTable) (self other : StringID) :
    InternTable × StringID × StringID :=
  (detach table self.sd, StringID.blank, { sd := other.sd })

/-- Modelled from the spec: `StringID::toString() const` (declared only): the
content of the Entry, or the empty string for the blank handle. `none` stands
for a handle whose Entry is not live (undefined behaviour in the program). -/
def StringID.toString (table : InternTable) (a : StringID) : Option String :=
  if a.sd = blankRef then some "" else (deref table a.sd).map Entry.content

/-- Modelled from the spec: `StringID::isValid() const` (declared only): true
iff the handle is not the blank handle. -/
def StringID.isValid (a : StringID) : Bool := a.sd != blankRef

/-- The call `a.weak()` as a step of the program state, which is the intern
table together with the handle the call is made on: the result, the table
afterwards and the handle afterwards. The member is `const` and its body only
reads `sd`. -/
def StringID.weakCall (table : InternTable) (a : StringID) :
    WeakStringID × InternTable × StringID :=
  (a.weak, table, a)

/-- The number of handles of a list that hold the reference `ref`. -/
def holders (handles : List StringID) (ref : Nat) : Nat :=
  handles.countP (fun h => h.sd == ref)

/-- The table invariant of section 3: Entry addresses are pairwise distinct,
no two Entries hold equal content (interning is canonical), and no Entry lives
at the blank reference. -/
def InternTable.WF (table : InternTable) : Prop :=
  (table.map Entry.id).Nodup ∧ (table.map Entry.content).Nodup ∧
    ∀ e ∈ table, e.id ≠ blankRef

/-- The handle invariant of section 3 for a list of live owning handles: every
handle that is not blank references a live Entry, and the reference count of
that Entry covers the handles of the list that share it. -/
def InternTable.Owned (table : InternTable) (handles : List StringID) : Prop :=
  ∀ h ∈ handles, h.sd ≠ blankRef →
    ∃ e ∈ table, e.id = h.sd ∧ holders handles h.sd ≤ e.refCount

/-- The combiner of the sequence hashes as the specification words it: one step
`h XOR (e + 0x9e3779b9 + (h << 6) + (h >> 2))` in arithmetic modulo `2 ^ 64`. -/
def combinerStepSpec (h e : Nat) : Nat :=
  h ^^^ ((e + 0x9e3779b9 + (h <<< 6) + (h >>> 2)) % 2 ^ 64)

/-- The sequence hash as the specification words it: the left fold of
`combinerStepSpec` over the element hashes, started from the hash of the null
pointer. -/
def sequenceHashSpec (hashPtr : Nat → Nat) (elementHashes : List Nat) : Nat :=
  elementHashes.foldl combinerStepSpec (hashPtr nullptr)

/-! ## Part 3 : the timer thread (`src/TimerThread.cpp`)

`TimerThread::Private::run` and `TimerThread::Private::~Private` as two
interleaved threads over the shared members `finish` and `mutex`. Each thread
is a step function on the shared state and its own program counter; a step
that has to block (taking a mutex that is held, joining a thread that has not
returned) is `none`. The callback body and the waiting time are left open: the
scheduler decides when the callback returns and when a wait ends, which covers
a notification, a timeout and a spurious wake up alike. -/

/-- The threads that can hold `TimerThread::Private::mutex`. -/
inductive TimerThread.MutexOwner where
  /-- The timer thread, which runs `run()`. -/
  | timerThread
  /-- The thread that destroys the object, which runs `~Private()`. -/
  | destructorThread
deriving DecidableEq, Repr

/-- The program points of `TimerThread::Private::run` (lines 47 to 61). -/
inductive TimerThread.RunPc where
  /-- Before `TP_MUTEX_LOCKER(mutex);` (line 50). -/
  | entry
  /-- At the test of `while(!finish)` (line 51). -/
  | whileTest
  /-- Calling `waitCondition.wait(TPMc mutex, timeoutMS);` (line 53). -/
  | waitEnter
  /-- Inside `wait`, blocked with the mutex released. -/
  | waitBlocked
  /-- At the test of `if(!finish)` (line 55). -/
  | ifTest
  /-- At `TP_MUTEX_UNLOCKER(mutex);` (line 57). -/
  | unlocker
  /-- About to call `callback();` (line 58). -/
  | callbackEntry
  /-- Inside `callback()`. -/
  | inCallback
  /-- The callback has returned; the unlocker goes out of scope (line 59). -/
  | relock
  /-- The loop is left; the locker goes out of scope (line 61). -/
  | loopExit
  /-- The thread function `run()` has returned. -/
  | returned
deriving DecidableEq, Repr

/-- The program points of `TimerThread::Private::~Private` (lines 35 to 44). -/
inductive TimerThread.DtorPc where
  /-- Not yet past `TP_MUTEX_LOCKER(mutex);` (line 38); the destructor may not
  have been called yet. -/
  | locker
  /-- At `finish = true;` (line 39). -/
  | setFinish
  /-- At `waitCondition.wakeAll();` (line 40). -/
  | wakeAll
  /-- At the end of the inner block, where the locker goes out of scope
  (line 41). -/
  | unlock
  /-- At `thread.join();` (line 43). -/
  | join
  /-- The destructor has finished. -/
  | joined
deriving DecidableEq, Repr

/-- The state of a `TimerThread::Private` and of the two threads that use it. -/
structure TimerThread.State where
  /-- The member `bool finish{false};`. -/
  finish : Bool
  /-- The member `TPMutex mutex`: who holds it, if anybody. -/
  mutex : Option TimerThread.MutexOwner
  /-- Where the timer thread is in `run()`. -/
  runPc : TimerThread.RunPc
  /-- Where the destroying thread is in `~Private()`. -/
  dtorPc : TimerThread.DtorPc
  /-- History variable, not part of the program: the value of `finish` that the
  timer thread read at its most recent test (`while(!finish)` or
  `if(!finish)`), `none` before the first test. -/
  observedFinish : Option Bool
deriving DecidableEq, Repr

/-- The state right after the constructor has started the thread: `finish` is
false (`bool finish{false};`), nobody holds the mutex, `run()` is at its entry
and the destructor has not run. -/
def TimerThread.init : TimerThread.State :=
  { finish := false, mutex := none, runPc := .entry, dtorPc := .locker,
    observedFinish := none }

/-- Modelled from the spec: `TPMutex` locking. The header
`tp_utils/MutexUtils.h` with `TPMutex`, `TP_MUTEX_LOCKER`, `TP_MUTEX_UNLOCKER`
and `TPWaitCondition` is missing and the specification only names the timer
thread, so the mutex is given the meaning of a plain mutual exclusion lock:
taking it succeeds when nobody holds it and blocks (`none`) otherwise. -/
def TimerThread.mutexLock (who : TimerThread.MutexOwner) (s : TimerThread.State) :
    Option TimerThread.State :=
  if s.mutex = none then some { s with mutex := some who } else none

/-- Modelled from the spec: `TPMutex` unlocking (header missing, see
`mutexLock`): afterwards nobody holds the mutex. -/
def TimerThread.mutexUnlock (s : TimerThread.State) : TimerThread.State :=
  { s with mutex := none }

/-- One step of `TimerThread::Private::run`. The guards of the missing header
are scoped guards: `TP_MUTEX_LOCKER` locks where it is declared and unlocks at
the end of its scope, `TP_MUTEX_UNLOCKER` unlocks where it is declared and
locks again at the end of its scope, and `TPWaitCondition::wait` unlocks,
blocks, and locks again before it returns. `setThreadName` does not touch the
state and is part of the first step. -/
def TimerThread.run_step (s : TimerThread.State) : Option TimerThread.State :=
  match s.runPc with
  | .entry =>
    (TimerThread.mutexLock .timerThread s).map (fun s1 => { s1 with runPc := .whileTest })
  | .whileTest =>
    if s.finish then some { s with runPc := .loopExit, observedFinish := some true }
    else some { s with runPc := .waitEnter, observedFinish := some false }
  | .waitEnter => some { TimerThread.mutexUnlock s with runPc := .waitBlocked }
  | .waitBlocked =>
    (TimerThread.mutexLock .timerThread s).map (fun s1 => { s1 with runPc := .ifTest })
  | .ifTest =>
    if s.finish then some { s with runPc := .whileTest, observedFinish := some true }
    else some { s with runPc := .unlocker, observedFinish := some false }
  | .unlocker => some { TimerThread.mutexUnlock s with runPc := .callbackEntry }
  | .callbackEntry => some { s with runPc := .inCallback }
  | .inCallback => some { s with runPc := .relock }
  | .relock =>
    (TimerThread.mutexLock .timerThread s).map (fun s1 => { s1 with runPc := .whileTest })
  | .loopExit => some { TimerThread.mutexUnlock s with runPc := .returned }
  | .returned => none

/-- One step of `TimerThread::Private::~Private`: lock the mutex, set `finish`,
wake the waiters, unlock at the end of the block, join the thread. A waiter
that is woken still has to lock the mutex, which is the `waitBlocked` step of
`run_step`, so `wakeAll` changes nothing in the state. -/
def TimerThread.destructor_step (s : TimerThread.State) : Option TimerThread.State :=
  match s.dtorPc with
  | .locker =>
    (TimerThread.mutexLock .destructorThread s).map (fun s1 => { s1 with dtorPc := .setFinish })
  | .setFinish => some { s with finish := true, dtorPc := .wakeAll }
  | .wakeAll => some { s with dtorPc := .unlock }
  | .unlock => some { TimerThread.mutexUnlock s with dtorPc := .join }
  | .join => if s.runPc = .returned then some { s with dtorPc := .joined } else none
  | .joined => none

/-- The two threads of the model. -/
inductive TimerThread.ThreadId where
  /-- The thread that runs `run()`. -/
  | timer
  /-- The thread that runs `~Private()`. -/
  | destructor
deriving DecidableEq, Repr

/-- One step of the thread the scheduler picks. -/
def TimerThread.step (t : TimerThread.ThreadId) (s : TimerThread.State) :
    Option TimerThread.State :=
  match t with
  | .timer => TimerThread.run_step s
  | .destructor => TimerThread.destructor_step s

/-- Running a schedule, a list of thread choices, from a state; `none` when the
schedule picks a thread that cannot step. -/
def TimerThread.exec : List TimerThread.ThreadId → TimerThread.State →
    Option TimerThread.State
  | [], s => some s
  | t :: rest, s =>
    match TimerThread.step t s with
    | some s2 => TimerThread.exec rest s2
    | none => none

/-- A state is reachable when some schedule leads to it from the initial
state. -/
def TimerThread.Reachable (s : TimerThread.State) : Prop :=
  ∃ schedule, TimerThread.exec schedule TimerThread.init = some s

/-- The timer thread holds the mutex. -/
def TimerThread.State.mutexHeld (s : TimerThread.State) : Bool :=
  s.mutex == some .timerThread

/-- The timer thread is inside `callback()`. -/
def TimerThread.State.callingCallback (s : TimerThread.State) : Bool :=
  s.runPc == .inCallback

/-- The timer thread is about to read `finish`, in `while(!finish)` or in
`if(!finish)`. -/
def TimerThread.State.atTest (s : TimerThread.State) : Bool :=
  s.runPc == .whileTest || s.runPc == .ifTest

/-- The invariant of the two threads, by program point: which thread holds the
mutex, what `finish` is, and what the timer thread has last read. -/
def TimerThread.Inv (s : TimerThread.State) : Prop :=
  (match s.runPc with
    | .entry => s.mutex ≠ some .timerThread ∧ s.observedFinish = none
    | .whileTest =>
      s.mutex = some .timerThread ∧ (s.observedFinish = some true → s.finish = true)
    | .waitEnter =>
      s.mutex = some .timerThread ∧ s.finish = false ∧ s.observedFinish = some false
    | .waitBlocked => s.mutex ≠ some .timerThread ∧ s.observedFinish = some false
    | .ifTest => s.mutex = some .timerThread ∧ s.observedFinish = some false
    | .unlocker =>
      s.mutex = some .timerThread ∧ s.finish = false ∧ s.observedFinish = some false
    | .callbackEntry => s.mutex ≠ some .timerThread ∧ s.observedFinish = some false
    | .inCallback => s.mutex ≠ some .timerThread ∧ s.observedFinish = some false
    | .relock => s.mutex ≠ some .timerThread ∧ s.observedFinish = some false
    | .loopExit =>
      s.mutex = some .timerThread ∧ s.finish = true ∧ s.observedFinish = some true
    | .returned =>
      s.mutex ≠ some .timerThread ∧ s.finish = true ∧ s.observedFinish = some true) ∧
  (match s.dtorPc with
    | .locker => s.mutex ≠ some .destructorThread ∧ s.finish = false
    | .setFinish => s.mutex = some .destructorThread ∧ s.finish = false
    | .wakeAll => s.mutex = some .destructorThread ∧ s.finish = true
    | .unlock => s.mutex = some .destructorThread ∧ s.finish = true
    | .join => s.mutex ≠ some .destructorThread ∧ s.finish = true
    | .joined => s.mutex ≠ some .destructorThread ∧ s.finish = true ∧ s.runPc = .returned)

/-! ## Lemmas about the intern table -/

theorem freshId_gt (table : InternTable) : ∀ e ∈ table, e.id < freshId table := by
  induction table with
  | nil => intro e he; cases he
  | cons x xs ih =>
    intro e he
    have hstep : freshId (x :: xs) = max x.id (freshId xs - 1) + 1 := by
      simp [freshId]
    rcases List.mem_cons.mp he with rfl | hmem
    · rw [hstep]; omega
    · have := ih e hmem
      rw [hstep]; omega

theorem freshId_ne_blank (table : InternTable) : freshId table ≠ blankRef := by
  simp [freshId, blankRef, nullptr]

theorem retain_map_id (table : InternTable) (ref : Nat) :
    (retain table ref).map Entry.id = table.map Entry.id := by
  induction table with
  | nil => rfl
  | cons x xs ih =>
    have hxs : List.map Entry.id (retain xs ref) = List.map Entry.id xs := ih
    by_cases h : x.id = ref <;> simp [retain, h] at hxs ⊢ <;> exact hxs

theorem retain_map_content (table : InternTable) (ref : Nat) :
    (retain table ref).map Entry.content = table.map Entry.content := by
  induction table with
  | nil => rfl
  | cons x xs ih =>
    have hxs : List.map Entry.content (retain xs ref) = List.map Entry.content xs := ih
    by_cases h : x.id = ref <;> simp [retain, h] at hxs ⊢ <;> exact hxs

theorem retain_mem (table : InternTable) (ref : Nat) :
    ∀ e ∈ table, ∃ e2 ∈ retain table ref, e2.id = e.id ∧ e2.content = e.content := by
  intro e he
  refine ⟨if e.id = ref then { e with refCount := e.refCount + 1 } else e, ?_, ?_, ?_⟩
  · exact List.mem_map.mpr ⟨e, he, rfl⟩
  · split <;> rfl
  · split <;> rfl

theorem retain_mem_inv (table : InternTable) (ref : Nat) :
    ∀ e2 ∈ retain table ref, ∃ e ∈ table, e2.id = e.id ∧ e2.content = e.content := by
  intro e2 he2
  obtain ⟨e, he, rfl⟩ := List.mem_map.mp he2
  refine ⟨e, he, ?_, ?_⟩ <;> split <;> rfl

theorem retain_wf (table : InternTable) (ref : Nat) (hwf : table.WF) :
    (retain table ref).WF := by
  obtain ⟨hid, hcontent, hblank⟩ := hwf
  refine ⟨?_, ?_, ?_⟩
  · rw [retain_map_id]; exact hid
  · rw [retain_map_content]; exact hcontent
  · intro e2 he2
    obtain ⟨e, he, h1, _⟩ := retain_mem_inv table ref e2 he2
    rw [h1]; exact hblank e he

/-- The three possible outcomes of `attach`, as equations. -/
theorem attach_cases (table : InternTable) (content : String) :
    (content = "" ∧ attach table content = (table, blankRef)) ∨
    (content ≠ "" ∧ ∃ e ∈ table, e.content = content ∧
        attach table content = (retain table e.id, e.id)) ∨
    (content ≠ "" ∧ (∀ e ∈ table, e.content ≠ content) ∧
        attach table content =
          ({ id := freshId table, content := content, refCount := 1 } :: table,
            freshId table)) := by
  by_cases hc : content = ""
  · left; exact ⟨hc, by simp [attach, hc]⟩
  · right
    cases hfind : table.find? (fun e => e.content == content) with
    | some e =>
      left
      refine ⟨hc, e, List.mem_of_find?_eq_some hfind, ?_, ?_⟩
      · have := List.find?_some hfind
        simpa using this
      · simp [attach, hc, hfind]
    | none =>
      right
      refine ⟨hc, ?_, ?_⟩
      · intro e he hcon
        have := List.find?_eq_none.mp hfind e he
        simp [hcon] at this
      · simp [attach, hc, hfind]

/-- Interning keeps the table invariant. -/
theorem attach_wf (table : InternTable) (content : String) (hwf : table.WF) :
    (attach table content).1.WF := by
  rcases attach_cases table content with ⟨_, h⟩ | ⟨_, e, _, _, h⟩ | ⟨_, hnone, h⟩
  · rw [h]; exact hwf
  · rw [h]; exact retain_wf table e.id hwf
  · rw [h]
    obtain ⟨hid, hcontent, hblank⟩ := hwf
    refine ⟨?_, ?_, ?_⟩
    · simp only [List.map_cons, List.nodup_cons]
      refine ⟨?_, hid⟩
      intro hmem
      obtain ⟨e, he, heq⟩ := List.mem_map.mp hmem
      have := freshId_gt table e he
      omega
    · simp only [List.map_cons, List.nodup_cons]
      refine ⟨?_, hcontent⟩
      intro hmem
      obtain ⟨e, he, heq⟩ := List.mem_map.mp hmem
      exact hnone e he heq
    · intro e he
      rcases List.mem_cons.mp he with rfl | hmem
      · exact freshId_ne_blank table
      · exact hblank e hmem

/-- Interning non-empty content returns the address of a live Entry with that
content, and the address is not the blank reference. -/
theorem attach_result (table : InternTable) (content : String) (hwf : table.WF)
    (hc : content ≠ "") :
    (attach table content).2 ≠ blankRef ∧
      ∃ e ∈ (attach table content).1, e.id = (attach table content).2 ∧ e.content = content := by
  rcases attach_cases table content with ⟨h0, _⟩ | ⟨_, e, he, hcon, h⟩ | ⟨_, _, h⟩
  · exact absurd h0 hc
  · rw [h]
    refine ⟨hwf.2.2 e he, ?_⟩
    obtain ⟨e2, he2, h1, h2⟩ := retain_mem table e.id e he
    exact ⟨e2, he2, h1, h2.trans hcon⟩
  · rw [h]
    exact ⟨freshId_ne_blank table, _, List.mem_cons_self _ _, rfl, rfl⟩

/-- Interning keeps every live Entry at its address and with its content. -/
theorem attach_keeps (table : InternTable) (content : String) :
    ∀ e ∈ table, ∃ e2 ∈ (attach table content).1, e2.id = e.id ∧ e2.content = e.content := by
  intro e he
  rcases attach_cases table content with ⟨_, h⟩ | ⟨_, x, _, _, h⟩ | ⟨_, _, h⟩
  · rw [h]; exact ⟨e, he, rfl, rfl⟩
  · rw [h]; exact retain_mem table x.id e he
  · rw [h]; exact ⟨e, List.mem_cons_of_mem _ he, rfl, rfl⟩

/-- In a well formed table two live Entries share their address iff they share
their content. -/
theorem wf_id_eq_iff_content_eq (table : InternTable) (hwf : table.WF) (e1 e2 : Entry)
    (h1 : e1 ∈ table) (h2 : e2 ∈ table) : e1.id = e2.id ↔ e1.content = e2.content := by
  constructor
  · intro h
    rw [List.inj_on_of_nodup_map hwf.1 h1 h2 h]
  · intro h
    rw [List.inj_on_of_nodup_map hwf.2.1 h1 h2 h]

/-- In a well formed table dereferencing the address of a live Entry reads
that Entry. -/
theorem deref_of_mem (table : InternTable) (hwf : table.WF) (e : Entry) (he : e ∈ table) :
    deref table e.id = some e := by
  cases hfind : deref table e.id with
  | none =>
    have := List.find?_eq_none.mp hfind e he
    simp at this
  | some x =>
    have hx : x ∈ table := List.mem_of_find?_eq_some hfind
    have hid : x.id = e.id := by
      have := List.find?_some hfind
      simpa using this
    rw [List.inj_on_of_nodup_map hwf.1 hx he hid]


/-- Giving up one share of the Entry at `ref` leaves the content read through
any reference `q` as it was, provided that, when `q` is `ref` itself, the
Entries at `ref` are shared at least twice. -/
theorem deref_detach (table : InternTable) (ref q : Nat)
    (h : q = ref → ∀ e ∈ table, e.id = ref → 2 ≤ e.refCount) :
    (deref (detach table ref) q).map Entry.content = (deref table q).map Entry.content := by
  induction table with
  | nil => rfl
  | cons x xs ih =>
    have ih2 : Option.map Entry.content (deref (detach xs ref) q)
        = Option.map Entry.content (deref xs q) :=
      ih (fun hq e he => h hq e (List.mem_cons_of_mem _ he))
    have hstep : deref (x :: xs) q = if x.id = q then some x else deref xs q := by
      by_cases hx : x.id = q <;> simp [deref, List.find?_cons, hx]
    by_cases hxr : x.id = ref
    · by_cases hzero : x.refCount - 1 = 0
      · have hq : q ≠ ref := by
          intro hq
          have := h hq x (List.mem_cons_self _ _) hxr
          omega
        have hxq : x.id ≠ q := by
          intro hxq; exact hq (hxq.symm.trans hxr)
        have hd : detach (x :: xs) ref = detach xs ref := by
          simp [detach, List.filterMap_cons, hxr, hzero]
        rw [hd, hstep, if_neg hxq]
        exact ih2
      · have hd : detach (x :: xs) ref
            = { x with refCount := x.refCount - 1 } :: detach xs ref := by
          simp [detach, List.filterMap_cons, hxr, hzero]
        rw [hd, hstep]
        by_cases hxq : x.id = q
        · simp [deref, List.find?_cons, hxq]
        · have hstep2 : deref ({ x with refCount := x.refCount - 1 } :: detach xs ref) q
              = deref (detach xs ref) q := by
            simp [deref, List.find?_cons, hxq]
          rw [hstep2, if_neg hxq]
          exact ih2
    · have hd : detach (x :: xs) ref = x :: detach xs ref := by
        simp [detach, List.filterMap_cons, hxr]
      rw [hd, hstep]
      by_cases hxq : x.id = q
      · simp [deref, List.find?_cons, hxq]
      · have hstep2 : deref (x :: detach xs ref) q = deref (detach xs ref) q := by
          simp [deref, List.find?_cons, hxq]
        rw [hstep2, if_neg hxq]
        exact ih2

/-- The empty table is well formed. -/
theorem wf_nil : InternTable.WF [] := by
  refine ⟨List.nodup_nil, List.nodup_nil, ?_⟩
  intro e he; cases he

/-- Giving up a share removes at most one Entry and changes only reference
counts: any projection that ignores the count gives a sublist. -/
theorem detach_map_sublist {α : Type} (f : Entry → α)
    (hf : ∀ (e : Entry) (n : Nat), f { e with refCount := n } = f e)
    (table : InternTable) (ref : Nat) :
    List.Sublist ((detach table ref).map f) (table.map f) := by
  induction table with
  | nil => exact List.Sublist.refl _
  | cons x xs ih =>
    have ih2 : List.Sublist ((detach xs ref).map f) (xs.map f) := ih
    by_cases hxr : x.id = ref
    · by_cases hzero : x.refCount - 1 = 0
      · have hd : detach (x :: xs) ref = detach xs ref := by
          simp [detach, List.filterMap_cons, hxr, hzero]
        rw [hd, List.map_cons]
        exact List.Sublist.cons _ ih2
      · have hd : detach (x :: xs) ref
            = { x with refCount := x.refCount - 1 } :: detach xs ref := by
          simp [detach, List.filterMap_cons, hxr, hzero]
        rw [hd, List.map_cons, List.map_cons, hf]
        exact List.Sublist.cons₂ _ ih2
    · have hd : detach (x :: xs) ref = x :: detach xs ref := by
        simp [detach, List.filterMap_cons, hxr]
      rw [hd, List.map_cons, List.map_cons]
      exact List.Sublist.cons₂ _ ih2

/-- Giving up a share keeps the table invariant. -/
theorem detach_wf (table : InternTable) (ref : Nat) (hwf : table.WF) :
    (detach table ref).WF := by
  obtain ⟨hid, hcontent, hblank⟩ := hwf
  refine ⟨?_, ?_, ?_⟩
  · exact List.Nodup.sublist (detach_map_sublist Entry.id (fun _ _ => rfl) table ref) hid
  · exact List.Nodup.sublist (detach_map_sublist Entry.content (fun _ _ => rfl) table ref)
      hcontent
  · intro e he
    have hmem : e.id ∈ (detach table ref).map Entry.id := List.mem_map.mpr ⟨e, he, rfl⟩
    have hmem2 := (detach_map_sublist Entry.id (fun _ _ => rfl) table ref).subset hmem
    obtain ⟨e0, he0, hid0⟩ := List.mem_map.mp hmem2
    rw [← hid0]; exact hblank e0 he0

/-! ## Lemmas about the sequence hashes -/

/-- The body of both loops is the combiner step of the specification. -/
theorem loop_body_eq_combinerStepSpec (h e : Nat) :
    h ^^^ wrap64 (wrap64 (wrap64 (e + 0x9e3779b9) + wrap64 (h <<< 6)) + (h >>> 2))
      = combinerStepSpec h e := by
  unfold combinerStepSpec wrap64
  congr 1
  generalize h <<< 6 = u
  generalize h >>> 2 = v
  omega

theorem hash_vector_StringID_loop_eq_foldl (hashPtr : Nat → Nat) (ids : List StringID) :
    ∀ h, hash_vector_StringID_loop hashPtr h ids
      = (ids.map (hash_StringID hashPtr)).foldl combinerStepSpec h := by
  induction ids with
  | nil => intro h; rfl
  | cons x xs ih =>
    intro h
    simp only [hash_vector_StringID_loop, List.map_cons, List.foldl_cons]
    rw [ih, loop_body_eq_combinerStepSpec]

theorem hash_vector_WeakStringID_loop_eq_foldl (hashPtr : Nat → Nat)
    (ws : List WeakStringID) :
    ∀ h, hash_vector_WeakStringID_loop hashPtr h ws
      = (ws.map (hash_WeakStringID hashPtr)).foldl combinerStepSpec h := by
  induction ws with
  | nil => intro h; rfl
  | cons x xs ih =>
    intro h
    simp only [hash_vector_WeakStringID_loop, List.map_cons, List.foldl_cons]
    rw [ih, loop_body_eq_combinerStepSpec]

/-- With the running value fixed, the combiner step is injective in the
element hash, as long as element hashes are `size_t` values. -/
theorem combinerStepSpec_injective (h e1 e2 : Nat) (h1 : e1 < 2 ^ 64) (h2 : e2 < 2 ^ 64)
    (heq : combinerStepSpec h e1 = combinerStepSpec h e2) : e1 = e2 := by
  unfold combinerStepSpec at heq
  have hmod := Nat.xor_right_inj.mp heq
  generalize h <<< 6 = u at hmod
  generalize h >>> 2 = v at hmod
  omega

/-- A sequence hash is a `size_t` value when the hash of the null pointer is. -/
theorem foldl_combinerStepSpec_lt (es : List Nat) :
    ∀ h, h < 2 ^ 64 → es.foldl combinerStepSpec h < 2 ^ 64 := by
  induction es with
  | nil => intro h hh; exact hh
  | cons e rest ih =>
    intro h hh
    rw [List.foldl_cons]
    apply ih
    unfold combinerStepSpec
    exact Nat.xor_lt_two_pow hh (Nat.mod_lt _ (by norm_num))

/-! ## Lemmas about the timer thread -/

/-- The initial state satisfies the invariant. -/
theorem TimerThread.inv_init : TimerThread.Inv TimerThread.init := by
  simp [TimerThread.Inv, TimerThread.init]

/-- Every step of either thread keeps the invariant. -/
theorem TimerThread.inv_step (t : TimerThread.ThreadId) (s s2 : TimerThread.State)
    (hinv : TimerThread.Inv s) (hstep : TimerThread.step t s = some s2) :
    TimerThread.Inv s2 := by
  rcases s with ⟨f, m, rp, dp, o⟩
  rcases m with _ | _ | _ <;> cases t <;> cases rp <;> cases dp <;> cases f <;>
    simp [TimerThread.Inv, TimerThread.step, TimerThread.run_step,
      TimerThread.destructor_step, TimerThread.mutexLock, TimerThread.mutexUnlock]
      at hinv hstep <;>
    (subst hstep; simp_all [TimerThread.Inv])

/-- Every schedule keeps the invariant. -/
theorem TimerThread.inv_exec (schedule : List TimerThread.ThreadId) :
    ∀ s s2 : TimerThread.State, TimerThread.Inv s →
      TimerThread.exec schedule s = some s2 → TimerThread.Inv s2 := by
  induction schedule with
  | nil =>
    intro s s2 hinv hexec
    simp only [TimerThread.exec, Option.some.injEq] at hexec
    rw [← hexec]; exact hinv
  | cons t rest ih =>
    intro s s2 hinv hexec
    cases hstep : TimerThread.step t s with
    | none => simp [TimerThread.exec, hstep] at hexec
    | some s1 =>
      simp only [TimerThread.exec, hstep] at hexec
      exact ih s1 s2 (TimerThread.inv_step t s s1 hinv hstep) hexec

/-- Once the timer thread has read `finish` as true, every step leaves that
observation in place. -/
theorem TimerThread.observed_step (t : TimerThread.ThreadId) (s s2 : TimerThread.State)
    (hinv : TimerThread.Inv s) (hobs : s.observedFinish = some true)
    (hstep : TimerThread.step t s = some s2) : s2.observedFinish = some true := by
  rcases s with ⟨f, m, rp, dp, o⟩
  rcases m with _ | _ | _ <;> cases t <;> cases rp <;> cases dp <;> cases f <;>
    simp [TimerThread.Inv, TimerThread.step, TimerThread.run_step,
      TimerThread.destructor_step, TimerThread.mutexLock, TimerThread.mutexUnlock]
      at hinv hstep hobs <;>
    (subst hstep; simp_all)

/-- Once the timer thread has read `finish` as true, every schedule leaves that
observation in place. -/
theorem TimerThread.observed_exec (schedule : List TimerThread.ThreadId) :
    ∀ s s2 : TimerThread.State, TimerThread.Inv s → s.observedFinish = some true →
      TimerThread.exec schedule s = some s2 → s2.observedFinish = some true := by
  induction schedule with
  | nil =>
    intro s s2 _ hobs hexec
    simp only [TimerThread.exec, Option.some.injEq] at hexec
    rw [← hexec]; exact hobs
  | cons t rest ih =>
    intro s s2 hinv hobs hexec
    cases hstep : TimerThread.step t s with
    | none => simp [TimerThread.exec, hstep] at hexec
    | some s1 =>
      simp only [TimerThread.exec, hstep] at hexec
      exact ih s1 s2 (TimerThread.inv_step t s s1 hinv hstep)
        (TimerThread.observed_step t s s1 hinv hobs hstep) hexec

/-- The invariant read at a state where `finish` has been observed true: the
timer thread is at the loop test, at the loop exit or has returned, and
`finish` is true. -/
theorem TimerThread.inv_observed (s : TimerThread.State) (hinv : TimerThread.Inv s)
    (hobs : s.observedFinish = some true) :
    (s.runPc = .whileTest ∨ s.runPc = .loopExit ∨ s.runPc = .returned) ∧ s.finish = true := by
  rcases s with ⟨f, m, rp, dp, o⟩
  cases rp <;> simp_all [TimerThread.Inv]

/-! ## The claims -/

/-- C1: for all strings s1 and s2, the handle constructed from s1 and the
handle constructed after it from s2 (both alive, in any well formed table)
compare equal with operator== if and only if s1 and s2 have equal content. -/
theorem interning_canonical (table : InternTable) (hwf : table.WF) (s1 s2 : String) :
    StringID.operatorEq (StringID.fromStdString table s1).2
        (StringID.fromStdString (StringID.fromStdString table s1).1 s2).2 = true
      ↔ s1 = s2 := by
  have hwf1 : (attach table s1).1.WF := attach_wf table s1 hwf
  have hwf2 : (attach (attach table s1).1 s2).1.WF := attach_wf _ s2 hwf1
  have hiff : (attach table s1).2 = (attach (attach table s1).1 s2).2 ↔ s1 = s2 := by
    by_cases h1 : s1 = ""
    · have hr1 : (attach table s1).2 = blankRef := by simp [attach, h1]
      by_cases h2 : s2 = ""
      · have hr2 : (attach (attach table s1).1 s2).2 = blankRef := by simp [attach, h2]
        rw [hr1, hr2, h1, h2]; simp
      · have hr2 := (attach_result (attach table s1).1 s2 hwf1 h2).1
        rw [hr1]
        constructor
        · intro h; exact absurd h.symm hr2
        · intro h; exact absurd (h.symm.trans h1) h2
    · obtain ⟨hr1, e1, he1, hid1, hcon1⟩ := attach_result table s1 hwf h1
      by_cases h2 : s2 = ""
      · have hr2 : (attach (attach table s1).1 s2).2 = blankRef := by simp [attach, h2]
        rw [hr2]
        constructor
        · intro h; exact absurd h hr1
        · intro h; exact absurd (h.trans h2) h1
      · obtain ⟨_, e2, he2, hid2, hcon2⟩ := attach_result (attach table s1).1 s2 hwf1 h2
        obtain ⟨e1k, he1k, hid1k, hcon1k⟩ := attach_keeps (attach table s1).1 s2 e1 he1
        have key := wf_id_eq_iff_content_eq _ hwf2 e1k e2 he1k he2
        rw [hid1k, hcon1k, hid1, hid2, hcon1, hcon2] at key
        exact key
  simp only [StringID.operatorEq, StringID.fromStdString, beq_iff_eq]
  exact hiff

/-- Witness of C1: from the empty table, "Alpha" twice gives equal handles. -/
theorem interning_canonical_witness :
    InternTable.WF [] ∧
      (StringID.operatorEq (StringID.fromStdString [] "Alpha").2
        (StringID.fromStdString (StringID.fromStdString [] "Alpha").1 "Alpha").2 = true
        ↔ "Alpha" = "Alpha") :=
  ⟨wf_nil, interning_canonical [] wf_nil "Alpha" "Alpha"⟩

/-- C2: for all handles a and b, operator== returns true iff the two sd
references are identical and operator!= returns true iff they differ; the
result does not depend on string content: in every table, handles with
different references compare unequal whatever toString reads for them. -/
theorem equality_is_entry_identity (a b : StringID) :
    (StringID.operatorEq a b = true ↔ a.sd = b.sd) ∧
    (StringID.operatorNe a b = true ↔ a.sd ≠ b.sd) ∧
    (StringID.operatorNe a b = !StringID.operatorEq a b) ∧
    (∀ table : InternTable, a.sd ≠ b.sd →
        StringID.toString table a = StringID.toString table b →
        StringID.operatorEq a b = false ∧ StringID.operatorNe a b = true) := by
  refine ⟨?_, ?_, ?_, ?_⟩
  · simp [StringID.operatorEq]
  · simp [StringID.operatorNe]
  · simp [StringID.operatorNe, StringID.operatorEq, bne]
  · intro _ hne _
    simp [StringID.operatorEq, StringID.operatorNe, hne]

/-- Witness of C2: in a table where two Entries hold the same content, the
handles to them read the same string and still compare unequal. -/
theorem equality_is_entry_identity_witness :
    StringID.toString [⟨1, "Alpha", 1⟩, ⟨2, "Alpha", 1⟩] ⟨1⟩
        = StringID.toString [⟨1, "Alpha", 1⟩, ⟨2, "Alpha", 1⟩] ⟨2⟩ ∧
      StringID.operatorEq ⟨1⟩ ⟨2⟩ = false ∧ StringID.operatorNe ⟨1⟩ ⟨2⟩ = true :=
  ⟨by decide,
    (equality_is_entry_identity ⟨1⟩ ⟨2⟩).2.2.2 [⟨1, "Alpha", 1⟩, ⟨2, "Alpha", 1⟩]
      (by decide) (by decide)⟩

/-- C3: for every string s, the handle constructed from s in a well formed
table reads back exactly s with toString; the blank handle reads the empty
string in every table. -/
theorem toString_roundtrip (table : InternTable) (hwf : table.WF) (s : String) :
    StringID.toString (StringID.fromStdString table s).1 (StringID.fromStdString table s).2
        = some s ∧
      StringID.toString table StringID.blank = some "" := by
  refine ⟨?_, by simp [StringID.toString, StringID.blank]⟩
  by_cases hs : s = ""
  · simp [StringID.toString, StringID.fromStdString, attach, hs]
  · obtain ⟨hr, e, he, hid, hcon⟩ := attach_result table s hwf hs
    have hd := deref_of_mem _ (attach_wf table s hwf) e he
    rw [hid] at hd
    simp [StringID.toString, StringID.fromStdString, hr, hd, hcon]

/-- Witness of C3: in a table that already holds "Alpha" and "Beta", a handle
constructed from "Beta" reads "Beta". -/
theorem toString_roundtrip_witness :
    InternTable.WF [⟨2, "Beta", 1⟩, ⟨1, "Alpha", 2⟩] ∧
      StringID.toString (StringID.fromStdString [⟨2, "Beta", 1⟩, ⟨1, "Alpha", 2⟩] "Beta").1
        (StringID.fromStdString [⟨2, "Beta", 1⟩, ⟨1, "Alpha", 2⟩] "Beta").2 = some "Beta" :=
  have hwf : InternTable.WF [⟨2, "Beta", 1⟩, ⟨1, "Alpha", 2⟩] := by
    unfold InternTable.WF; decide
  ⟨hwf, (toString_roundtrip _ hwf "Beta").1⟩

/-- C4: in every table, the default constructed handle and the handle
constructed from the empty string compare equal, isValid is false for both and
toString reads the empty string for both; the construction leaves the table as
it was. -/
theorem blank_handles_agree (table : InternTable) :
    StringID.operatorEq StringID.blank (StringID.fromCString table "").2 = true ∧
    StringID.operatorEq StringID.blank (StringID.fromStdString table "").2 = true ∧
    StringID.isValid StringID.blank = false ∧
    StringID.isValid (StringID.fromCString table "").2 = false ∧
    StringID.isValid (StringID.fromStdString table "").2 = false ∧
    StringID.toString table StringID.blank = some "" ∧
    StringID.toString (StringID.fromCString table "").1 (StringID.fromCString table "").2
      = some "" ∧
    StringID.toString (StringID.fromStdString table "").1 (StringID.fromStdString table "").2
      = some "" ∧
    (StringID.fromCString table "").1 = table := by
  simp [StringID.operatorEq, StringID.blank, StringID.fromCString, StringID.fromStdString,
    StringID.isValid, StringID.toString, attach]

/-- C5: for every handle a, after a handle b is move constructed from a, a is
not valid and b reads what a read before; the same holds after an existing
handle b (a distinct object) is move assigned from a, in a well formed table
whose reference counts cover the two handles. -/
theorem move_leaves_source_blank (table : InternTable) (a : StringID) :
    (StringID.isValid (StringID.moveConstruct table a).2.1 = false ∧
      StringID.toString (StringID.moveConstruct table a).1
          (StringID.moveConstruct table a).2.2 = StringID.toString table a) ∧
    (∀ b : StringID, table.WF → table.Owned [a, b] →
      StringID.isValid (StringID.moveAssign table b a).2.1 = false ∧
      StringID.toString (StringID.moveAssign table b a).1
          (StringID.moveAssign table b a).2.2 = StringID.toString table a ∧
      ∃ s, StringID.toString table a = some s) := by
  refine ⟨⟨by simp [StringID.moveConstruct, StringID.isValid, StringID.blank], rfl⟩, ?_⟩
  intro b hwf hown
  refine ⟨by simp [StringID.moveAssign, StringID.isValid, StringID.blank], ?_, ?_⟩
  · by_cases ha : a.sd = blankRef
    · simp [StringID.moveAssign, StringID.toString, ha]
    · have hdd : (deref (detach table b.sd) a.sd).map Entry.content
          = (deref table a.sd).map Entry.content := by
        apply deref_detach
        intro hab e he heid
        obtain ⟨e0, he0, hid0, hcount⟩ := hown a (by simp) ha
        have hee : e = e0 := by
          apply List.inj_on_of_nodup_map hwf.1 he he0
          rw [heid, hid0, hab]
        have h2 : holders [a, b] a.sd = 2 := by
          simp [holders, List.countP_cons, hab]
        rw [hee]; omega
      simp only [StringID.moveAssign, StringID.toString, if_neg ha]
      exact hdd
  · by_cases ha : a.sd = blankRef
    · exact ⟨"", by simp [StringID.toString, ha]⟩
    · obtain ⟨e0, he0, hid0, _⟩ := hown a (by simp) ha
      have hd := deref_of_mem table hwf e0 he0
      rw [hid0] at hd
      exact ⟨e0.content, by simp [StringID.toString, ha, hd]⟩

/-- Witness of C5: two handles share the Entry of "Alpha" (count 2); after
b is move assigned from a, a is blank and b still reads "Alpha". -/
theorem move_leaves_source_blank_witness :
    InternTable.WF [⟨2, "Beta", 1⟩, ⟨1, "Alpha", 2⟩] ∧
    InternTable.Owned [⟨2, "Beta", 1⟩, ⟨1, "Alpha", 2⟩] [⟨1⟩, ⟨1⟩] ∧
    StringID.isValid (StringID.moveAssign [⟨2, "Beta", 1⟩, ⟨1, "Alpha", 2⟩] ⟨1⟩ ⟨1⟩).2.1
      = false ∧
    StringID.toString (StringID.moveAssign [⟨2, "Beta", 1⟩, ⟨1, "Alpha", 2⟩] ⟨1⟩ ⟨1⟩).1
      (StringID.moveAssign [⟨2, "Beta", 1⟩, ⟨1, "Alpha", 2⟩] ⟨1⟩ ⟨1⟩).2.2 = some "Alpha" :=
  have hwf : InternTable.WF [⟨2, "Beta", 1⟩, ⟨1, "Alpha", 2⟩] := by
    unfold InternTable.WF; decide
  have hown : InternTable.Owned [⟨2, "Beta", 1⟩, ⟨1, "Alpha", 2⟩] [⟨1⟩, ⟨1⟩] := by
    unfold InternTable.Owned; decide
  have h := (move_leaves_source_blank [⟨2, "Beta", 1⟩, ⟨1, "Alpha", 2⟩] ⟨1⟩).2 ⟨1⟩ hwf hown
  ⟨hwf, hown, h.1, h.2.1.trans (by decide)⟩

/-- C6: for every handle a, std::hash of the handle is std::hash of void*
applied to the sd reference, which is also the hash of a.weak(); hence handles
that compare equal with operator== have equal hashes. -/
theorem hash_is_entry_identity_hash (hashPtr : Nat → Nat) (a : StringID) :
    hash_StringID hashPtr a = hashPtr a.sd ∧
    hash_StringID hashPtr a = hash_WeakStringID hashPtr a.weak ∧
    (∀ b : StringID, StringID.operatorEq a b = true →
        hash_StringID hashPtr a = hash_StringID hashPtr b) := by
  refine ⟨rfl, rfl, ?_⟩
  intro b hab
  have hsd : a.sd = b.sd := by simpa [StringID.operatorEq] using hab
  simp [hash_StringID, hsd]

/-- Witness of C6: two handles to the Entry at address 4096 have the same
hash under the identity pointer hash. -/
theorem hash_is_entry_identity_hash_witness :
    StringID.operatorEq ⟨4096⟩ ⟨4096⟩ = true ∧
      hash_StringID id ⟨4096⟩ = hash_StringID id ⟨4096⟩ :=
  ⟨by decide, (hash_is_entry_identity_hash id ⟨4096⟩).2.2 ⟨4096⟩ (by decide)⟩

/-- C7: for every handle a, weak() returns the sd reference of the handle and
leaves the table (so every reference count) and the handle as they were; for
all handles a and b the weak tokens are equal iff the handles compare equal
with operator==. -/
theorem weak_is_own_reference (table : InternTable) (a : StringID) :
    (StringID.weakCall table a).1 = a.sd ∧
    (StringID.weakCall table a).2.1 = table ∧
    (StringID.weakCall table a).2.2 = a ∧
    (∀ ref, (deref (StringID.weakCall table a).2.1 ref).map Entry.refCount
        = (deref table ref).map Entry.refCount) ∧
    (∀ b : StringID, a.weak = b.weak ↔ StringID.operatorEq a b = true) := by
  refine ⟨rfl, rfl, rfl, fun _ => rfl, ?_⟩
  intro b
  simp [StringID.weak, StringID.operatorEq]

/-- C8: the sequence hash is order sensitive: under the identity pointer hash
there are two distinct handles a and b, with pointer values in the 64 bit
range, such that the permutation [b, a] of [a, b] has a different hash. -/
theorem sequence_hash_order_sensitive :
    ∃ a b : StringID, a.sd < 2 ^ 64 ∧ b.sd < 2 ^ 64 ∧ StringID.operatorNe a b = true ∧
      List.Perm [a, b] [b, a] ∧
      hash_vector_StringID id [a, b] ≠ hash_vector_StringID id [b, a] :=
  ⟨⟨4096⟩, ⟨8192⟩, by decide, by decide, by decide, List.Perm.swap _ _ _, by decide⟩

/-- C9: for every sequence of handles, the hash of the sequence equals the
hash of the sequence of their weak tokens in the same order, and both are the
left fold of the combiner step of the specification over the element hashes,
started from the hash of the null pointer. -/
theorem owning_and_weak_sequence_hash_agree (hashPtr : Nat → Nat) (ids : List StringID) :
    hash_vector_StringID hashPtr ids
        = hash_vector_WeakStringID hashPtr (ids.map StringID.weak) ∧
    hash_vector_StringID hashPtr ids
        = sequenceHashSpec hashPtr (ids.map (hash_StringID hashPtr)) ∧
    (∀ ws : List WeakStringID, hash_vector_WeakStringID hashPtr ws
        = sequenceHashSpec hashPtr (ws.map (hash_WeakStringID hashPtr))) := by
  have hown : hash_vector_StringID hashPtr ids
      = sequenceHashSpec hashPtr (ids.map (hash_StringID hashPtr)) :=
    hash_vector_StringID_loop_eq_foldl hashPtr ids _
  have hweak : ∀ ws : List WeakStringID, hash_vector_WeakStringID hashPtr ws
      = sequenceHashSpec hashPtr (ws.map (hash_WeakStringID hashPtr)) :=
    fun ws => hash_vector_WeakStringID_loop_eq_foldl hashPtr ws _
  refine ⟨?_, hown, hweak⟩
  rw [hown, hweak, List.map_map]
  rfl

/-- C10: if the pointer hash maps 64 bit pointer values to size_t values and
is injective on them, then for every prefix p and all handles x and y with
x != y, the hash of p followed by x differs from the hash of p followed by y;
the combiner step with a fixed running value is injective in the element
hash. -/
theorem sequence_hash_last_element_injective (hashPtr : Nat → Nat)
    (hrange : ∀ q, q < 2 ^ 64 → hashPtr q < 2 ^ 64)
    (hinj : ∀ q1 q2, q1 < 2 ^ 64 → q2 < 2 ^ 64 → hashPtr q1 = hashPtr q2 → q1 = q2)
    (p : List StringID) (x y : StringID) (hx : x.sd < 2 ^ 64) (hy : y.sd < 2 ^ 64)
    (hxy : StringID.operatorNe x y = true) :
    hash_vector_StringID hashPtr (p ++ [x]) ≠ hash_vector_StringID hashPtr (p ++ [y]) ∧
    (∀ h e1 e2, e1 < 2 ^ 64 → e2 < 2 ^ 64 →
        combinerStepSpec h e1 = combinerStepSpec h e2 → e1 = e2) := by
  refine ⟨?_, fun h e1 e2 h1 h2 heq => combinerStepSpec_injective h e1 e2 h1 h2 heq⟩
  intro heq
  unfold hash_vector_StringID at heq
  rw [hash_vector_StringID_loop_eq_foldl, hash_vector_StringID_loop_eq_foldl] at heq
  simp only [List.map_append, List.map_cons, List.map_nil, List.foldl_append,
    List.foldl_cons, List.foldl_nil] at heq
  have hhash := combinerStepSpec_injective _ _ _ (hrange _ hx) (hrange _ hy) heq
  have hsd : x.sd = y.sd := hinj _ _ hx hy hhash
  simp [StringID.operatorNe, hsd] at hxy

/-- Witness of C10: under the identity pointer hash, after the prefix [4096]
the last elements 8192 and 12288 give different hashes. -/
theorem sequence_hash_last_element_injective_witness :
    StringID.operatorNe ⟨8192⟩ ⟨12288⟩ = true ∧
      hash_vector_StringID id ([⟨4096⟩] ++ [⟨8192⟩])
        ≠ hash_vector_StringID id ([⟨4096⟩] ++ [⟨12288⟩]) :=
  ⟨by decide,
    (sequence_hash_last_element_injective id (fun _ hq => hq) (fun _ _ _ _ h => h)
      [⟨4096⟩] ⟨8192⟩ ⟨12288⟩ (by norm_num) (by norm_num) (by decide)).1⟩

/-- C11: in every reachable state of `TimerThread::Private::run` interleaved
with `~Private`: (1) when the callback is about to be entered or is running,
the last value of finish the timer thread read under the mutex is false, and
finish is still false when the mutex is released for the callback; (2) the
callback is entered and runs with the mutex released, and the timer thread
holds the mutex at every test of finish; (3) a loop test that finds finish
true leaves the loop, an if test that finds finish true goes straight to the
loop test, where the destructor cannot step and the loop is left, and after
finish has been read true no callback or wait happens on any continuation. -/
theorem timer_thread_run_protocol (s : TimerThread.State)
    (hreach : TimerThread.Reachable s) :
    ((s.runPc = .callbackEntry ∨ s.callingCallback = true) →
        s.observedFinish = some false) ∧
    (s.runPc = .unlocker → s.finish = false ∧ s.observedFinish = some false) ∧
    ((s.runPc = .callbackEntry ∨ s.callingCallback = true) → s.mutexHeld = false) ∧
    (s.atTest = true → s.mutexHeld = true) ∧
    (s.runPc = .whileTest → s.finish = true →
        ∃ s2, TimerThread.run_step s = some s2 ∧ s2.runPc = .loopExit) ∧
    (s.runPc = .ifTest → s.finish = true →
        ∃ s2 s3, TimerThread.run_step s = some s2 ∧ s2.runPc = .whileTest ∧
          TimerThread.destructor_step s2 = none ∧
          TimerThread.run_step s2 = some s3 ∧ s3.runPc = .loopExit) ∧
    (s.observedFinish = some true → ∀ schedule s2,
        TimerThread.exec schedule s = some s2 →
          s2.observedFinish = some true ∧ s2.finish = true ∧
          (s2.runPc = .whileTest ∨ s2.runPc = .loopExit ∨ s2.runPc = .returned)) := by
  obtain ⟨schedule0, hexec0⟩ := hreach
  have hinv : TimerThread.Inv s :=
    TimerThread.inv_exec schedule0 TimerThread.init s TimerThread.inv_init hexec0
  refine ⟨?_, ?_, ?_, ?_, ?_, ?_, ?_⟩
  · rcases s with ⟨f, m, rp, dp, o⟩
    cases rp <;> simp_all [TimerThread.Inv, TimerThread.State.callingCallback]
  · rcases s with ⟨f, m, rp, dp, o⟩
    cases rp <;> simp_all [TimerThread.Inv]
  · rcases s with ⟨f, m, rp, dp, o⟩
    cases rp <;>
      simp_all [TimerThread.Inv, TimerThread.State.callingCallback,
        TimerThread.State.mutexHeld]
  · rcases s with ⟨f, m, rp, dp, o⟩
    cases rp <;>
      simp_all [TimerThread.Inv, TimerThread.State.atTest, TimerThread.State.mutexHeld]
  · intro hpc hfin
    rcases s with ⟨f, m, rp, dp, o⟩
    simp only at hpc hfin
    subst hpc hfin
    exact ⟨_, rfl, rfl⟩
  · intro hpc hfin
    rcases s with ⟨f, m, rp, dp, o⟩
    simp only at hpc hfin
    subst hpc hfin
    refine ⟨_, _, rfl, rfl, ?_, rfl, rfl⟩
    rcases m with _ | _ | _ <;> cases dp <;>
      simp_all [TimerThread.Inv, TimerThread.destructor_step, TimerThread.mutexLock]
  · intro hobs schedule s2 hexec
    have hinv2 := TimerThread.inv_exec schedule s s2 hinv hexec
    have hobs2 := TimerThread.observed_exec schedule s s2 hinv hobs hexec
    have h := TimerThread.inv_observed s2 hinv2 hobs2
    exact ⟨hobs2, h.2, h.1⟩

/-- Witness of C11: the schedule in which the destructor sets finish after the
timer thread has released the mutex for the callback reaches a state where the
callback runs, finish is true, and the last value the timer thread read is
false; the schedule in which the destructor runs during the wait reaches the
if test with finish true, from where the timer thread leaves the loop. -/
theorem timer_thread_run_protocol_witness :
    TimerThread.Reachable
      { finish := true, mutex := some .destructorThread, runPc := .inCallback,
        dtorPc := .wakeAll, observedFinish := some false } ∧
    TimerThread.State.mutexHeld
      { finish := true, mutex := some .destructorThread, runPc := .inCallback,
        dtorPc := .wakeAll, observedFinish := some false } = false ∧
    TimerThread.Reachable
      { finish := true, mutex := some .timerThread, runPc := .ifTest,
        dtorPc := .join, observedFinish := some false } ∧
    (∃ s2 s3,
      TimerThread.run_step
        { finish := true, mutex := some .timerThread, runPc := .ifTest,
          dtorPc := .join, observedFinish := some false } = some s2 ∧
      s2.runPc = .whileTest ∧ TimerThread.destructor_step s2 = none ∧
      TimerThread.run_step s2 = some s3 ∧ s3.runPc = .loopExit) :=
  have h1 : TimerThread.Reachable
      { finish := true, mutex := some .destructorThread, runPc := .inCallback,
        dtorPc := .wakeAll, observedFinish := some false } :=
    ⟨[.timer, .timer, .timer, .timer, .timer, .timer, .destructor, .destructor, .timer],
      by decide⟩
  have h2 : TimerThread.Reachable
      { finish := true, mutex := some .timerThread, runPc := .ifTest,
        dtorPc := .join, observedFinish := some false } :=
    ⟨[.timer, .timer, .timer, .destructor, .destructor, .destructor, .destructor, .timer],
      by decide⟩
  ⟨h1, (timer_thread_run_protocol _ h1).2.2.1 (Or.inr (by decide)),
    h2, (timer_thread_run_protocol _ h2).2.2.2.2.2.1 rfl rfl⟩

end tp_utils
